import Mathlib

/-!
Verification of the anomaly-scoring core of `quick_anomaly_detector/models.py`:
the Gaussian density detector (`AnomalyDetectionModel`: `estimate_gaussian`,
`calculate_p_value`, `select_threshold`, `predict`) and the autoencoder trainer
(`TrainAnomalyNN`: `_normalize_data`, the early-stopping loop of `train`, and
`predict`).

Modelling conventions.
* Machine floats are modelled by exact rationals `ℚ`.
* A float NaN produced by a `0/0` division (numpy emits a warning but no
  error) is modelled by `none : Option ℚ`; finite values are `some q`.
* A raised Python exception is modelled by `Except.error` with a `ModelError`
  tag naming the failure class.
* The scipy call `multivariate_normal(mean=mu, cov=np.diag(var))` raises
  (`LinAlgError` / `ValueError`) whenever the diagonal covariance is singular
  or not positive definite, i.e. whenever some variance entry is `≤ 0`;
  on the zero-initialised (untrained) scalar parameters `np.diag(0)` raises a
  `ValueError` as well.  Both are modelled by `ModelError.distributionError`.
  The probability density value itself is transcendental, hence not a
  rational; no claim depends on its numeric value, so the `ok` branch carries
  the (rational) Mahalanobis statistic of each sample as a stand-in for the
  density vector.
* `np.arange(start, stop, step)` with a nonzero step returns
  `start + k*step` for `k < ⌈(stop-start)/step⌉`; with `step = 0` numpy
  raises `ZeroDivisionError`, modelled by `ModelError.zeroStepRange`.
-/

namespace QuickAnomaly

/-- Failure classes of the Python code, see the header comment. -/
inductive ModelError where
  | notTrained : ModelError
  | distributionError : ModelError
  | zeroStepRange : ModelError
  | emptyInput : ModelError
  deriving DecidableEq, Repr

/-- Python `max` on a list of floats (raises on `[]`; the `[]` case below is
never reached, callers guard emptiness). -/
def pymax : List ℚ → ℚ
  | [] => 0
  | x :: xs => xs.foldl max x

/-- Python `min` on a list of floats. -/
def pymin : List ℚ → ℚ
  | [] => 0
  | x :: xs => xs.foldl min x

/-- `np.arange(start, stop, step)` over exact rationals.  numpy computes the
length as `⌈(stop-start)/step⌉` and raises `ZeroDivisionError` on a zero
step. -/
def np_arange (start stop step : ℚ) : Except ModelError (List ℚ) :=
  if step = 0 then .error .zeroStepRange
  else .ok ((List.range (⌈(stop - start) / step⌉).toNat).map (fun k => start + (k : ℚ) * step))

/-- `predictions = (p_val < epsilon).astype(int)` (models.py line 82). -/
def predsAt (p_val : List ℚ) (eps : ℚ) : List ℕ :=
  p_val.map (fun p => if p < eps then 1 else 0)

/-- The F1 score computed in the body of the `select_threshold` loop
(models.py lines 82-88): `tp/fp/fn` are counts over the aligned
prediction/label vectors, precision/recall/F1 default to `0` whenever the
corresponding denominator is `0`. -/
def F1at (y_val : List ℕ) (p_val : List ℚ) (eps : ℚ) : ℚ :=
  let preds := predsAt p_val eps
  let tp : ℚ := ((preds.zip y_val).countP (fun c => decide (c.1 = 1 ∧ c.2 = 1)) : ℕ)
  let fp : ℚ := ((preds.zip y_val).countP (fun c => decide (c.1 = 1 ∧ c.2 = 0)) : ℕ)
  let fn : ℚ := ((preds.zip y_val).countP (fun c => decide (c.1 = 0 ∧ c.2 = 1)) : ℕ)
  let prec := if 0 < tp + fp then tp / (tp + fp) else 0
  let recl := if 0 < tp + fn then tp / (tp + fn) else 0
  if 0 < prec + recl then 2 * prec * recl / (prec + recl) else 0

/-- The candidate-threshold enumeration of `select_threshold`
(models.py lines 80-81): `np.arange(min(p_val), max(p_val), step_size)` with
`step_size = (max(p_val) - min(p_val)) / 1000`. -/
def candidates (p_val : List ℚ) : Except ModelError (List ℚ) :=
  np_arange (pymin p_val) (pymax p_val) ((pymax p_val - pymin p_val) / 1000)

/-- One iteration of the champion-tracking loop (models.py lines 89-91):
keep `(best_epsilon, best_F1)` and replace it only on a strict improvement. -/
def champStep (f : ℚ → ℚ) (acc : ℚ × ℚ) (c : ℚ) : ℚ × ℚ :=
  if acc.2 < f c then (c, f c) else acc

/-- `AnomalyDetectionModel.select_threshold` (models.py lines 76-92).
`best_epsilon` and `best_F1` start at `0`; Python `max`/`min` raise on an
empty vector. -/
def select_threshold (y_val : List ℕ) (p_val : List ℚ) : Except ModelError (ℚ × ℚ) :=
  match p_val with
  | [] => .error .emptyInput
  | _ :: _ => (candidates p_val).map (fun cs => cs.foldl (champStep (F1at y_val p_val)) (0, 0))

/-- Specification-side definition (from the spec, for comparison with the
code): the maximum F1 over all candidate thresholds, `0` for no candidates
(every F1 value is nonnegative, so the `0` base is neutral). -/
def maxF1 (y_val : List ℕ) (p_val : List ℚ) (cs : List ℚ) : ℚ :=
  (cs.map (F1at y_val p_val)).foldr max 0

/-- `AnomalyDetectionModel.estimate_gaussian` (models.py lines 65-69):
`np.mean(X, axis=0)` and `np.var(X, axis=0)` — per-feature arithmetic mean
and population variance (divisor `m`, numpy default `ddof=0`). -/
def estimate_gaussian (X : List (List ℚ)) : List ℚ × List ℚ :=
  let m : ℚ := (X.length : ℕ)
  let n := (X.headD []).length
  ((List.range n).map (fun j => (X.map (fun r => r.getD j 0)).sum / m),
   (List.range n).map (fun j =>
     (X.map (fun r => (r.getD j 0 - (X.map (fun s => s.getD j 0)).sum / m) ^ 2)).sum / m))

/-- Rational stand-in for the multivariate-normal density of one sample under
independent per-feature Gaussians: the Mahalanobis statistic
`Σ_j (x_j - mu_j)^2 / var_j` (the density is a strictly decreasing function
of it; see the header comment). -/
def gaussScore (mu var x : List ℚ) : ℚ :=
  ((x.zip (mu.zip var)).map (fun t => (t.1 - t.2.1) ^ 2 / t.2.2)).sum

/-- `AnomalyDetectionModel.calculate_p_value` (models.py lines 71-74).
`params = none` models the zero-initialised scalar `mu_train`/`var_train` of
an untrained instance, on which `np.diag(0)` raises; a variance entry `≤ 0`
makes `np.diag(var)` singular / not positive definite, on which
`multivariate_normal` raises. -/
def calculate_p_value (X : List (List ℚ)) (params : Option (List ℚ × List ℚ)) :
    Except ModelError (List ℚ) :=
  match params with
  | none => .error .distributionError
  | some (mu, var) =>
    if var.any (fun v => decide (v ≤ 0)) then .error .distributionError
    else .ok (X.map (fun x => gaussScore mu var x))

/-- State of an `AnomalyDetectionModel` instance.  `params = none` models the
`__init__` sentinels `mu_train = 0`, `var_train = 0` (models.py lines 54-63);
`epsilon` starts at `0.05` and `f1` at `0`. -/
structure AnomalyDetectionModel where
  params : Option (List ℚ × List ℚ)
  epsilon : ℚ
  f1 : ℚ

/-- A freshly constructed (never trained) `AnomalyDetectionModel`. -/
def AnomalyDetectionModel.initial : AnomalyDetectionModel := ⟨none, 1 / 20, 0⟩

/-- `AnomalyDetectionModel.predict` (models.py lines 113-127): computes
p-values with the stored parameters and compares them against the stored
epsilon.  Note: there is no trained-state check of any kind. -/
def AnomalyDetectionModel.predict (st : AnomalyDetectionModel) (X : List (List ℚ)) :
    Except ModelError (List Bool) :=
  (calculate_p_value X st.params).map (fun ps => ps.map (fun p => decide (p < st.epsilon)))

/-- Float division with the dividend and divisor finite: `0/0` (the only
division-by-zero arising from min-max normalization, since the numerator
`x - min` vanishes whenever `max = min`) yields NaN, modelled `none`. -/
def rdiv (a b : ℚ) : Option ℚ :=
  if b = 0 then none else some (a / b)

/-- One row of `(X - min_vals) / (max_vals - min_vals)` (models.py line 325),
elementwise over the features. -/
def normRow (mins maxs row : List ℚ) : List (Option ℚ) :=
  (row.zip (mins.zip maxs)).map (fun t => rdiv (t.1 - t.2.1) (t.2.2 - t.2.1))

/-- `(X - min_vals) / (max_vals - min_vals)` for a whole batch. -/
def normalizeWith (mins maxs : List ℚ) (X : List (List ℚ)) : List (List (Option ℚ)) :=
  X.map (normRow mins maxs)

/-- `np.min(X, axis=0)`: per-feature minimum over the rows. -/
def colMins (X : List (List ℚ)) : List ℚ :=
  (List.range ((X.headD []).length)).map (fun j => pymin (X.map (fun r => r.getD j 0)))

/-- `np.max(X, axis=0)`: per-feature maximum over the rows. -/
def colMaxs (X : List (List ℚ)) : List ℚ :=
  (List.range ((X.headD []).length)).map (fun j => pymax (X.map (fun r => r.getD j 0)))

/-- State of a `TrainAnomalyNN` instance (models.py lines 283-304): the
trained network (`none` until `train` ran; the fitted torch network is
abstracted as a reconstruction function on normalized rows) and the stored
training-set normalization bounds. -/
structure TrainAnomalyNN where
  model : Option (List ℚ → List ℚ)
  train_min_values : List ℚ
  train_max_values : List ℚ

/-- A freshly constructed (never trained) `TrainAnomalyNN`. -/
def TrainAnomalyNN.initial : TrainAnomalyNN := ⟨none, [], []⟩

/-- `TrainAnomalyNN._normalize_data` (models.py lines 306-326): with
`isValid` the stored bounds are applied unchanged; otherwise the batch's own
per-feature min/max are computed, stored, and applied.  Returns the updated
instance state together with the normalized batch. -/
def TrainAnomalyNN.normalize_data (st : TrainAnomalyNN) (X : List (List ℚ)) (isValid : Bool) :
    TrainAnomalyNN × List (List (Option ℚ)) :=
  if isValid then (st, normalizeWith st.train_min_values st.train_max_values X)
  else
    let mn := colMins X
    let mx := colMaxs X
    (⟨st.model, mn, mx⟩, normalizeWith mn mx X)

/-- NaN propagation of float aggregation: a row containing a NaN (`none`)
entry has no finite value vector; otherwise the plain values are collected. -/
def seqOption : List (Option ℚ) → Option (List ℚ)
  | [] => some []
  | none :: _ => none
  | some a :: l => (seqOption l).map (fun r => a :: r)

/-- `torch.mean(torch.square(X_tensor - reconstructed_data), dim=1)` for one
normalized row (models.py line 406): NaN (`none`) entries propagate into the
mean; otherwise the squared differences against the reconstruction `f r` are
averaged. -/
def recErr (f : List ℚ → List ℚ) (row : List (Option ℚ)) : Option ℚ :=
  (seqOption row).map (fun r =>
    (((r.zip (f r)).map (fun t => (t.1 - t.2) ^ 2)).sum : ℚ) / ((r.zip (f r)).length : ℕ))

/-- `TrainAnomalyNN.predict` (models.py lines 387-408): raises
`ValueError("Model has not been trained yet.")` when `self.model is None`;
otherwise normalizes with the stored bounds, reconstructs, and returns the
0/1 predictions (`reconstruction_loss > threshold`; an IEEE comparison with
NaN is false, so a NaN loss yields prediction `0`) together with the
per-sample reconstruction losses.  Runs under `torch.no_grad()` — pure, no
parameter update. -/
def TrainAnomalyNN.predict (st : TrainAnomalyNN) (X : List (List ℚ)) (threshold : ℚ) :
    Except ModelError (List ℕ × List (Option ℚ)) :=
  match st.model with
  | none => .error .notTrained
  | some f =>
    let nd := (st.normalize_data X true).2
    let errs := nd.map (recErr f)
    .ok (errs.map (fun e => match e with
          | some q => if threshold < q then 1 else 0
          | none => 0), errs)

/-- `predict` with its default argument `threshold = 0.0002`. -/
def TrainAnomalyNN.predict_default (st : TrainAnomalyNN) (X : List (List ℚ)) :
    Except ModelError (List ℕ × List (Option ℚ)) :=
  st.predict X (2 / 10000)

/-- Specification-side definition: a normalized row with plain rational
entries (used to state what `predict` computes when no bound is degenerate). -/
def normRowQ (mins maxs row : List ℚ) : List ℚ :=
  (row.zip (mins.zip maxs)).map (fun t => (t.1 - t.2.1) / (t.2.2 - t.2.1))

/-- Specification-side definition: per-sample reconstruction error — the mean
over features of the squared difference between the normalized input and its
reconstruction. -/
def mseSpec (mins maxs : List ℚ) (f : List ℚ → List ℚ) (row : List ℚ) : ℚ :=
  let r := normRowQ mins maxs row
  (((r.zip (f r)).map (fun t => (t.1 - t.2) ^ 2)).sum : ℚ) / ((r.zip (f r)).length : ℕ)

/-- `valid_loss < best_loss` with `best_loss` initialized to `float('inf')`
(models.py lines 350, 376): `none` models the infinite initial best. -/
def improves (l : ℚ) : Option ℚ → Bool
  | none => true
  | some b => decide (l < b)

/-- Outcome of the `train` loop of `TrainAnomalyNN` (models.py lines
352-385), restricted to its early-stopping skeleton: `epochsRun` counts the
executed epochs; `stopInfo = some (e, b)` records an early stop at epoch `e`
(`self.stop_step = epoch`) with recorded best validation loss `b`
(`self.best_loss = best_loss`); `stopInfo = none` means the loop exhausted
`num_epochs` without triggering early stopping (in the code `stop_step` and
`best_loss` then keep their `__init__` values `0`). -/
structure EsOutcome where
  epochsRun : ℕ
  stopInfo : Option (ℕ × Option ℚ)
  deriving DecidableEq, Repr

/-- The early-stopping recursion of `TrainAnomalyNN.train` (models.py lines
352-385).  `loss e` is epoch `e`'s mean validation loss (the gradient steps
that produce it are irrelevant to the stopping logic and abstracted into the
sequence).  Each epoch: if the validation loss strictly improves on the best
seen, update the best and reset the counter, else increment the counter;
then stop as soon as `counter >= patience`. -/
def esGo (patience : ℕ) (loss : ℕ → ℚ) : ℕ → ℕ → Option ℚ → ℕ → EsOutcome
  | 0, epoch, _, _ => ⟨epoch, none⟩
  | fuel + 1, epoch, best, counter =>
    let l := loss epoch
    let best' := if improves l best then some l else best
    let counter' := if improves l best then 0 else counter + 1
    if patience ≤ counter' then ⟨epoch + 1, some (epoch, best')⟩
    else esGo patience loss fuel (epoch + 1) best' counter'

/-- The `for epoch in range(self.num_epochs)` loop of `TrainAnomalyNN.train`
with `best_loss = float('inf')` and `counter = 0` on entry. -/
def trainEarlyStop (patience num_epochs : ℕ) (loss : ℕ → ℚ) : EsOutcome :=
  esGo patience loss num_epochs 0 none 0

/-- The concrete candidate list `np.arange` produces for scores `[1, 2]`:
1000 thresholds starting at `1` with step `1/1000`. -/
def csC1 : List ℚ :=
  (List.range 1000).map (fun k => 1 + (k : ℚ) * ((2 - 1) / 1000))

/-- The concrete candidate list `np.arange` produces for scores `[0, 2]`:
1000 thresholds starting at `0` with step `2/1000`. -/
def csC2 : List ℚ :=
  (List.range 1000).map (fun k => 0 + (k : ℚ) * ((2 - 0) / 1000))

instance {ε α : Type} [DecidableEq ε] [DecidableEq α] : DecidableEq (Except ε α) := fun a b =>
  match a, b with
  | .error e, .error g =>
    if h : e = g then .isTrue (congrArg Except.error h)
    else .isFalse (fun hh => h (Except.error.inj hh))
  | .ok x, .ok y =>
    if h : x = y then .isTrue (congrArg Except.ok h)
    else .isFalse (fun hh => h (Except.ok.inj hh))
  | .error _, .ok _ => .isFalse (fun hh => Except.noConfusion hh)
  | .ok _, .error _ => .isFalse (fun hh => Except.noConfusion hh)

theorem le_foldr_max (b : ℚ) (xs : List ℚ) : b ≤ xs.foldr max b := by
  induction xs with
  | nil => exact le_refl b
  | cons x xs ih => exact le_trans ih (le_max_right x _)

theorem foldr_max_absorb (xs : List ℚ) (a b : ℚ) (h : b ≤ a) :
    xs.foldr max a = max a (xs.foldr max b) := by
  induction xs with
  | nil => simpa using (max_eq_left h).symm
  | cons x xs ih => simp only [List.foldr_cons, ih]; rw [max_left_comm]

theorem mem_le_foldr_max (xs : List ℚ) (b x : ℚ) (hx : x ∈ xs) : x ≤ xs.foldr max b := by
  induction xs with
  | nil => cases hx
  | cons y ys ih =>
    rcases List.mem_cons.mp hx with h | h
    · subst h; exact le_max_left _ _
    · exact le_trans (ih h) (le_max_right _ _)

theorem foldr_max_zero (xs : List ℚ) (h : ∀ x ∈ xs, x = 0) : xs.foldr max 0 = 0 := by
  induction xs with
  | nil => rfl
  | cons y ys ih =>
    rw [List.foldr_cons, h y (List.mem_cons_self y ys),
      ih (fun x hx => h x (List.mem_cons_of_mem _ hx))]
    exact max_self 0

/-- The champion-tracking fold of `select_threshold`: its final F1 component
is the maximum F1 over the scanned candidates (down to the initial best `b`),
it leaves the accumulator untouched when nothing strictly improves on `b`,
and whenever something does improve, the final epsilon is the first candidate
attaining the final (maximal) F1. -/
theorem champ_fold_spec (f : ℚ → ℚ) :
    ∀ (L : List ℚ) (e b : ℚ),
      (L.foldl (champStep f) (e, b)).2 = (L.map f).foldr max b ∧
      ((L.foldl (champStep f) (e, b)).2 = b → L.foldl (champStep f) (e, b) = (e, b)) ∧
      (b < (L.foldl (champStep f) (e, b)).2 →
        L.find? (fun c => decide (f c = (L.foldl (champStep f) (e, b)).2)) =
          some (L.foldl (champStep f) (e, b)).1) := by
  intro L
  induction L with
  | nil =>
    intro e b
    exact ⟨rfl, fun _ => rfl, fun h => absurd h (lt_irrefl b)⟩
  | cons c L ih =>
    intro e b
    by_cases hcb : b < f c
    · have hfold : (c :: L).foldl (champStep f) (e, b) = L.foldl (champStep f) (c, f c) := by
        rw [List.foldl_cons]
        have : champStep f (e, b) c = (c, f c) := by simp [champStep, hcb]
        rw [this]
      obtain ⟨ih1, ih2, ih3⟩ := ih c (f c)
      have hle : f c ≤ (L.foldl (champStep f) (c, f c)).2 := by
        rw [ih1]; exact le_foldr_max _ _
      refine ⟨?_, ?_, ?_⟩
      · rw [hfold, ih1, List.map_cons, List.foldr_cons,
          foldr_max_absorb _ _ _ (le_of_lt hcb)]
      · intro h2
        exfalso
        rw [hfold] at h2
        rw [h2] at hle
        exact absurd (lt_of_lt_of_le hcb hle) (lt_irrefl b)
      · intro _
        rw [hfold]
        by_cases hceq : f c = (L.foldl (champStep f) (c, f c)).2
        · have hr := ih2 hceq.symm
          have hp : decide (f c = (L.foldl (champStep f) (c, f c)).2) = true :=
            decide_eq_true hceq
          simp only [List.find?, hp]
          rw [hr]
        · have hlt : f c < (L.foldl (champStep f) (c, f c)).2 := lt_of_le_of_ne hle hceq
          have hp : decide (f c = (L.foldl (champStep f) (c, f c)).2) = false :=
            decide_eq_false hceq
          simp only [List.find?, hp]
          exact ih3 hlt
    · have hcb2 : f c ≤ b := le_of_not_lt hcb
      have hfold : (c :: L).foldl (champStep f) (e, b) = L.foldl (champStep f) (e, b) := by
        rw [List.foldl_cons]
        have : champStep f (e, b) c = (e, b) := by simp [champStep, hcb]
        rw [this]
      obtain ⟨ih1, ih2, ih3⟩ := ih e b
      refine ⟨?_, ?_, ?_⟩
      · rw [hfold, ih1, List.map_cons, List.foldr_cons]
        exact (max_eq_right (le_trans hcb2 (le_foldr_max _ _))).symm
      · intro h2
        rw [hfold] at h2 ⊢
        exact ih2 h2
      · intro hblt
        rw [hfold] at hblt ⊢
        have hne : ¬ (f c = (L.foldl (champStep f) (e, b)).2) := by
          intro hh
          rw [← hh] at hblt
          exact absurd (lt_of_lt_of_le hblt hcb2) (lt_irrefl b)
        have hp : decide (f c = (L.foldl (champStep f) (e, b)).2) = false :=
          decide_eq_false hne
        simp only [List.find?, hp]
        exact ih3 hblt

/-- Unfolding `select_threshold` to its fold once the candidate enumeration
succeeded. -/
theorem select_threshold_eq_fold (y_val : List ℕ) (p_val : List ℚ) (cs : List ℚ)
    (hne : p_val ≠ []) (hcs : candidates p_val = .ok cs) :
    select_threshold y_val p_val =
      .ok (cs.foldl (champStep (F1at y_val p_val)) (0, 0)) := by
  cases p_val with
  | nil => exact absurd rfl hne
  | cons p ps => simp only [select_threshold, hcs, Except.map]

/-- With no anomalous label present, every tp count is `0`, so precision,
recall and F1 are all `0` whatever the threshold. -/
theorem F1at_eq_zero_of_no_pos (y_val : List ℕ) (p_val : List ℚ) (eps : ℚ)
    (hy : ∀ l ∈ y_val, l ≠ 1) : F1at y_val p_val eps = 0 := by
  have htp : ((predsAt p_val eps).zip y_val).countP (fun c => decide (c.1 = 1 ∧ c.2 = 1)) = 0 := by
    refine List.countP_eq_zero.mpr ?_
    intro c hc
    have hcy : c.2 ∈ y_val := (List.of_mem_zip hc).2
    simp only [decide_eq_true_eq, not_and]
    exact fun _ => hy c.2 hcy
  simp only [F1at]
  rw [htp]
  simp

/-- When every candidate's F1 is `0`, the champion fold never improves on the
zero-initialised accumulator and `(0, 0)` is returned. -/
theorem select_fold_zero (y_val : List ℕ) (p_val : List ℚ) (cs : List ℚ)
    (hne : p_val ≠ []) (hcs : candidates p_val = .ok cs)
    (hall : ∀ c ∈ cs, F1at y_val p_val c = 0) :
    select_threshold y_val p_val = .ok (0, 0) := by
  rw [select_threshold_eq_fold y_val p_val cs hne hcs]
  obtain ⟨h1, h2, _⟩ := champ_fold_spec (F1at y_val p_val) cs 0 0
  have hz : (cs.map (F1at y_val p_val)).foldr max 0 = 0 := by
    refine foldr_max_zero _ ?_
    intro x hx
    obtain ⟨c, hc, hcx⟩ := List.mem_map.mp hx
    rw [← hcx]
    exact hall c hc
  rw [h2 (h1.trans hz)]

theorem find?_all_true {α : Type} (p : α → Bool) (l : List α)
    (h : ∀ x ∈ l, p x = true) : l.find? p = l.head? := by
  cases l with
  | nil => rfl
  | cons a l => simp only [List.find?, h a (List.mem_cons_self a l)]; rfl

/-- The candidate list for validation scores `[1, 2]`. -/
theorem candidates_12 : candidates [(1 : ℚ), 2] = .ok csC1 := by
  have h1 : pymin [(1 : ℚ), 2] = 1 := by
    simp [pymin]
  have h2 : pymax [(1 : ℚ), 2] = 2 := by
    simp [pymax]
  unfold candidates np_arange
  rw [h1, h2]
  rw [if_neg (by norm_num)]
  have hc : (((2 : ℚ) - 1) / ((2 - 1) / 1000)) = ((1000 : ℕ) : ℚ) := by norm_num
  rw [hc, Int.ceil_natCast]
  rfl

/-- The candidate list for validation scores `[0, 2]`. -/
theorem candidates_02 : candidates [(0 : ℚ), 2] = .ok csC2 := by
  have h1 : pymin [(0 : ℚ), 2] = 0 := by
    simp [pymin]
  have h2 : pymax [(0 : ℚ), 2] = 2 := by
    simp [pymax]
  unfold candidates np_arange
  rw [h1, h2]
  rw [if_neg (by norm_num)]
  have hc : (((2 : ℚ) - 0) / ((2 - 0) / 1000)) = ((1000 : ℕ) : ℚ) := by norm_num
  rw [hc, Int.ceil_natCast]
  rfl

/-- Claim C1 (amended): on aligned vectors with a nondegenerate score range,
whenever some candidate threshold attains a positive F1, `select_threshold`
returns the maximum F1 over the 1000 `np.arange` candidates together with
the first (lowest) candidate attaining it.  (Without the positivity proviso
the claim fails: when every candidate has F1 = 0 the returned epsilon is the
initialised default `0`, not the first candidate — see the counterexample.) -/
theorem select_threshold_first_argmax (y_val : List ℕ) (p_val : List ℚ) (cs : List ℚ)
    (hne : p_val ≠ []) (hcs : candidates p_val = .ok cs)
    (hpos : ∃ c ∈ cs, 0 < F1at y_val p_val c) :
    select_threshold y_val p_val =
      .ok ((cs.find? (fun c => decide (F1at y_val p_val c = maxF1 y_val p_val cs))).getD 0,
        maxF1 y_val p_val cs) := by
  rw [select_threshold_eq_fold y_val p_val cs hne hcs]
  obtain ⟨h1, _, h3⟩ := champ_fold_spec (F1at y_val p_val) cs 0 0
  obtain ⟨c, hc, hcpos⟩ := hpos
  have hlt : (0 : ℚ) < (cs.foldl (champStep (F1at y_val p_val)) (0, 0)).2 := by
    rw [h1]
    exact lt_of_lt_of_le hcpos (mem_le_foldr_max _ _ _ (List.mem_map_of_mem _ hc))
  have hm : maxF1 y_val p_val cs = (cs.foldl (champStep (F1at y_val p_val)) (0, 0)).2 := h1.symm
  rw [hm, h3 hlt]
  rfl

set_option maxRecDepth 100000 in
/-- Claim C1 witness: for labels `[1, 0]` and scores `[1, 2]` some candidate
has positive F1, and `select_threshold` returns the first candidate attaining
the maximal F1 (concretely `1 + 1/1000` with F1 `= 1`). -/
theorem select_threshold_first_argmax_witness :
    select_threshold [1, 0] [(1 : ℚ), 2] =
      .ok ((csC1.find? (fun c =>
          decide (F1at [1, 0] [(1 : ℚ), 2] c = maxF1 [1, 0] [(1 : ℚ), 2] csC1))).getD 0,
        maxF1 [1, 0] [(1 : ℚ), 2] csC1) := by
  refine select_threshold_first_argmax [1, 0] [(1 : ℚ), 2] csC1 (by simp) candidates_12 ?_
  refine ⟨1 + 1 / 1000, ?_, ?_⟩
  · have h1 : (fun k : ℕ => 1 + (k : ℚ) * ((2 - 1) / 1000)) 1 = 1 + 1 / 1000 := by norm_num
    have h0 : (1 : ℕ) ∈ List.range 1000 := List.mem_range.mpr (by norm_num)
    have h2 : ((fun k : ℕ => 1 + (k : ℚ) * ((2 - 1) / 1000)) 1) ∈ csC1 := by
      unfold csC1
      exact List.mem_map_of_mem (fun k : ℕ => 1 + (k : ℚ) * ((2 - 1) / 1000)) h0
    rwa [h1] at h2
  · norm_num [F1at, predsAt, List.countP_cons, List.countP_nil]

set_option maxRecDepth 100000 in
/-- Claim C1 counterexample: for labels `[0, 0]` and scores `[1, 2]` every
candidate has F1 `= 0`, the maximum F1 over the candidates is therefore `0`
and its first attaining candidate is the lowest candidate `1`, yet the code
returns the initialised `best_epsilon = 0`, which is not a candidate. -/
theorem select_threshold_ties_default_cex :
    select_threshold [0, 0] [(1 : ℚ), 2] = .ok (0, 0) ∧
    (csC1.find? (fun c =>
        decide (F1at [0, 0] [(1 : ℚ), 2] c = maxF1 [0, 0] [(1 : ℚ), 2] csC1))).getD 0 = 1 ∧
    candidates [(1 : ℚ), 2] = .ok csC1 ∧ (0 : ℚ) ≠ 1 := by
  have hy : ∀ l ∈ [0, 0], l ≠ 1 := by decide
  have hz : ∀ eps : ℚ, F1at [0, 0] [(1 : ℚ), 2] eps = 0 :=
    fun eps => F1at_eq_zero_of_no_pos _ _ _ hy
  have hmax : maxF1 [0, 0] [(1 : ℚ), 2] csC1 = 0 := by
    unfold maxF1
    refine foldr_max_zero _ ?_
    intro x hx
    obtain ⟨c, _, hcx⟩ := List.mem_map.mp hx
    rw [← hcx]
    exact hz c
  refine ⟨select_fold_zero _ _ csC1 (by simp) candidates_12 (fun c _ => hz c), ?_,
    candidates_12, by norm_num⟩
  rw [hmax]
  have hft : csC1.find? (fun c => decide (F1at [0, 0] [(1 : ℚ), 2] c = 0)) = csC1.head? :=
    find?_all_true _ _ (fun x _ => decide_eq_true (hz x))
  rw [hft]
  have hh : csC1.head? = some 1 := by with_unfolding_all decide
  rw [hh]
  rfl

/-- Claim C2 (amended): provided the score range is nondegenerate (so that
the candidate enumeration succeeds at all), a label vector with no positive
entry — or, more generally, candidates all of F1 `0` — makes
`select_threshold` return the initialised `(epsilon, F1) = (0, 0)`.  (For a
degenerate range the code instead raises from `np.arange`, see the
counterexample.) -/
theorem select_threshold_no_discrimination (y_val : List ℕ) (p_val : List ℚ) (cs : List ℚ)
    (hne : p_val ≠ []) (hcs : candidates p_val = .ok cs)
    (h : (∀ l ∈ y_val, l ≠ 1) ∨ (∀ c ∈ cs, F1at y_val p_val c = 0)) :
    select_threshold y_val p_val = .ok (0, 0) := by
  refine select_fold_zero y_val p_val cs hne hcs ?_
  rcases h with h | h
  · exact fun c _ => F1at_eq_zero_of_no_pos _ _ _ h
  · exact h

/-- Claim C2 witness: all-normal labels `[0, 0]` with scores `[0, 2]` give
back the initialised `(0, 0)`. -/
theorem select_threshold_no_discrimination_witness :
    select_threshold [0, 0] [(0 : ℚ), 2] = .ok (0, 0) :=
  select_threshold_no_discrimination [0, 0] [(0 : ℚ), 2] csC2 (by simp) candidates_02
    (Or.inl (by decide))

/-- Claim C2 counterexample: the label vector `[0]` has no positive entry,
yet `select_threshold` on scores `[5]` does not return `(0, 0)`: the zero
score range makes `np.arange` raise (`ZeroDivisionError`). -/
theorem select_threshold_no_discrimination_cex :
    select_threshold [0] [(5 : ℚ)] = .error .zeroStepRange ∧
    (∀ l ∈ [0], l ≠ 1) ∧
    (Except.error ModelError.zeroStepRange ≠ Except.ok ((0 : ℚ), (0 : ℚ))) := by
  refine ⟨?_, by decide, fun h => Except.noConfusion h⟩
  have h5 : (pymax [(5 : ℚ)] - pymin [(5 : ℚ)]) / 1000 = 0 := by
    simp [pymax, pymin]
  simp only [select_threshold, candidates, np_arange, h5, eq_self_iff_true, if_true, Except.map]

/-- Claim C10: `select_threshold` is total exactly on score vectors with a
nondegenerate range: with all scores equal the step is `0` and `np.arange`
raises (`ZeroDivisionError`) before the documented `epsilon = 0` default can
be returned, while a strictly positive range always yields a value. -/
theorem select_threshold_degenerate_range (y_val : List ℕ) (p_val : List ℚ)
    (hne : p_val ≠ []) :
    (pymax p_val = pymin p_val →
      select_threshold y_val p_val = .error .zeroStepRange) ∧
    (pymin p_val < pymax p_val → ∃ r, select_threshold y_val p_val = .ok r) := by
  cases p_val with
  | nil => exact absurd rfl hne
  | cons p ps =>
    constructor
    · intro heq
      have hz : (pymax (p :: ps) - pymin (p :: ps)) / 1000 = 0 := by
        rw [heq, sub_self, zero_div]
      simp only [select_threshold, candidates, np_arange, hz, eq_self_iff_true, if_true,
        Except.map]
    · intro hlt
      have hz : ¬ ((pymax (p :: ps) - pymin (p :: ps)) / 1000 = 0) := by
        intro h
        rcases div_eq_zero_iff.mp h with h | h
        · exact absurd (sub_eq_zero.mp h).symm (ne_of_lt hlt)
        · norm_num at h
      simp only [select_threshold, candidates, np_arange, if_neg hz, Except.map]
      exact ⟨_, rfl⟩

/-- Claim C10 witness: on the constant score vector `[7, 7]` the enumeration
step is zero and `select_threshold` raises instead of returning. -/
theorem select_threshold_degenerate_range_witness :
    select_threshold [0, 1] [(7 : ℚ), 7] = .error .zeroStepRange :=
  (select_threshold_degenerate_range [0, 1] [(7 : ℚ), 7] (by simp)).1 (by simp [pymax, pymin])

/-- Descent phase of the early-stopping loop: as long as every epoch strictly
improves on its predecessor (and the first one improves on the incoming
best), the loop keeps resetting the counter and carries the latest loss as
the running best. -/
theorem esGo_desc (p : ℕ) (loss : ℕ → ℚ) (hp : 1 ≤ p) :
    ∀ (k fuel epoch : ℕ) (best : Option ℚ) (counter : ℕ),
      k + 1 ≤ fuel →
      improves (loss epoch) best = true →
      (∀ e, epoch ≤ e → e < epoch + k → loss (e + 1) < loss e) →
      esGo p loss fuel epoch best counter =
        esGo p loss (fuel - (k + 1)) (epoch + k + 1) (some (loss (epoch + k))) 0 := by
  intro k
  induction k with
  | zero =>
    intro fuel epoch best counter hfuel himp _
    obtain ⟨g, rfl⟩ : ∃ g, fuel = g + 1 := ⟨fuel - 1, by omega⟩
    simp only [esGo, himp, if_true]
    rw [if_neg (by omega)]
    simp
  | succ k ih =>
    intro fuel epoch best counter hfuel himp hchain
    obtain ⟨g, rfl⟩ : ∃ g, fuel = g + 1 := ⟨fuel - 1, by omega⟩
    have hstep : esGo p loss (g + 1) epoch best counter =
        esGo p loss g (epoch + 1) (some (loss epoch)) 0 := by
      simp only [esGo, himp, if_true]
      rw [if_neg (by omega)]
    rw [hstep]
    have himp2 : improves (loss (epoch + 1)) (some (loss epoch)) = true := by
      simp only [improves, decide_eq_true_eq]
      exact hchain epoch (le_refl _) (by omega)
    rw [ih g (epoch + 1) (some (loss epoch)) 0 (by omega) himp2
      (fun e he1 he2 => hchain e (by omega) (by omega))]
    have h1 : g - (k + 1) = g + 1 - (k + 1 + 1) := by omega
    have h2 : epoch + 1 + k = epoch + (k + 1) := by omega
    rw [h1, h2]

/-- Flat phase of the early-stopping loop: starting from a finite best `b`
with `counter + m = patience`, `m` consecutive non-improving epochs stop the
loop, recording the last executed epoch and the untouched best. -/
theorem esGo_flat (p : ℕ) (loss : ℕ → ℚ) (b : ℚ) :
    ∀ (m fuel epoch counter : ℕ),
      counter + m = p → 1 ≤ m → m ≤ fuel →
      (∀ i, i < m → ¬ (loss (epoch + i) < b)) →
      esGo p loss fuel epoch (some b) counter =
        ⟨epoch + m, some (epoch + m - 1, some b)⟩ := by
  intro m
  induction m with
  | zero =>
    intro fuel epoch counter _ hm1 _ _
    omega
  | succ m ih =>
    intro fuel epoch counter hcm _ hmf hni
    obtain ⟨g, rfl⟩ : ∃ g, fuel = g + 1 := ⟨fuel - 1, by omega⟩
    have himp : improves (loss epoch) (some b) = false := by
      simp only [improves, decide_eq_false_iff_not]
      simpa using hni 0 (by omega)
    cases m with
    | zero =>
      simp only [esGo, himp, if_false, Bool.false_eq_true]
      rw [if_pos (by omega)]
      simp
    | succ m1 =>
      simp only [esGo, himp, if_false, Bool.false_eq_true]
      rw [if_neg (by omega)]
      rw [ih g (epoch + 1) (counter + 1) (by omega) (by omega) (by omega)
        (fun i hi => by
          have hx := hni (i + 1) (by omega)
          have he : epoch + (i + 1) = epoch + 1 + i := by omega
          rwa [he] at hx)]
      have h1 : epoch + 1 + (m1 + 1) = epoch + (m1 + 1 + 1) := by omega
      rw [h1]

/-- Claim C3: `TrainAnomalyNN.train` tracks the best validation loss
(initialised to infinity) and a non-improvement counter — reset on strict
improvement, incremented otherwise — and stops the first time the counter
reaches `patience` (default 10), recording the stopping epoch in `stop_step`
and the running best in `best_loss`.  In particular, a validation-loss
sequence that strictly improves through epoch `k` and then fails to improve
for exactly `patience` consecutive epochs halts right then: epochs
`0 … k + patience` run, `stop_step = k + patience`, `best_loss = loss k`. -/
theorem trainEarlyStop_halts (p n k : ℕ) (loss : ℕ → ℚ)
    (hp : 1 ≤ p) (hn : k + p < n)
    (hdec : ∀ e, e < k → loss (e + 1) < loss e)
    (hflat : ∀ i, 1 ≤ i → i ≤ p → loss k ≤ loss (k + i)) :
    trainEarlyStop p n loss = ⟨k + p + 1, some (k + p, some (loss k))⟩ := by
  unfold trainEarlyStop
  rw [esGo_desc p loss hp k n 0 none 0 (by omega) rfl
    (fun e he1 he2 => hdec e (by omega))]
  have h0 : (0 : ℕ) + k = k := by omega
  rw [h0]
  rw [esGo_flat p loss (loss k) p (n - (k + 1)) (k + 1) 0 (by omega) hp (by omega)
    (fun i hi => by
      have hx := hflat (i + 1) (by omega) (by omega)
      have he : k + (i + 1) = k + 1 + i := by omega
      rw [he] at hx
      exact not_lt.mpr hx)]
  have h2 : k + 1 + p - 1 = k + p := by omega
  have h1 : k + 1 + p = k + p + 1 := by omega
  rw [h2, h1]

/-- Claim C3 witness: with `patience = 2` and the validation-loss sequence
`5, 4, 4, 4, …` (strict improvement at epoch 1, then flat), training runs
epochs `0 … 3`, stopping at epoch `3` with best loss `4`. -/
theorem trainEarlyStop_halts_witness :
    trainEarlyStop 2 10 (fun e => if e = 0 then 5 else 4) =
      ⟨4, some (3, some 4)⟩ := by
  have h := trainEarlyStop_halts 2 10 1 (fun e => if e = 0 then 5 else 4)
    (by norm_num) (by norm_num)
    (by
      intro e he
      interval_cases e
      norm_num)
    (by
      intro i h1 h2
      have hne : ¬ (1 + i = 0) := by omega
      simp [hne])
  simpa using h

/-- Claim C4 (amended): calling `predict` before any `train` raises an
explicit `ValueError("Model has not been trained yet.")` for
`TrainAnomalyNN` — but `AnomalyDetectionModel.predict` has no trained-state
check at all: on a fresh instance it proceeds into `calculate_p_value` with
the zero-initialised sentinel parameters, where scipy/numpy raise an
incidental distribution error instead of a "not trained" signal. -/
theorem untrained_predict_behavior (X : List (List ℚ)) (threshold : ℚ) :
    TrainAnomalyNN.initial.predict X threshold = .error .notTrained ∧
    AnomalyDetectionModel.initial.predict X = .error .distributionError :=
  ⟨rfl, rfl⟩

/-- Claim C4 counterexample: the untrained Gaussian detector's `predict`
fails with a distribution error, not with the "not trained" error the claim
asserts. -/
theorem untrained_gauss_predict_cex :
    AnomalyDetectionModel.initial.predict [[(1 : ℚ)]] = .error .distributionError ∧
    ModelError.distributionError ≠ ModelError.notTrained :=
  ⟨rfl, by decide⟩

theorem get?_zip {α β : Type} (l1 : List α) (l2 : List β) (i : ℕ) :
    (l1.zip l2).get? i = (l1.get? i).bind (fun a => (l2.get? i).map (fun b => (a, b))) := by
  induction l1 generalizing l2 i with
  | nil => simp
  | cons a l1 ih =>
    cases l2 with
    | nil => simp
    | cons b l2 =>
      cases i with
      | zero => rfl
      | succ i => simpa using ih l2 i

/-- Claim C5 (amended): in training mode, normalization maps each feature's
own minimum to exactly `0` and its maximum to exactly `1` provided the
feature is nondegenerate (`min ≠ max`; with a constant feature the entry is
instead the NaN of `0/0` — see the counterexample); and any later
inference-mode batch `Y` is normalized with exactly the stored training
bounds, never with `Y`'s own statistics. -/
theorem normalize_train_bounds (st : TrainAnomalyNN) (X Y : List (List ℚ))
    (row : List ℚ) (i j : ℕ) (x mn mx : ℚ)
    (hrow : X.get? i = some row) (hx : row.get? j = some x)
    (hmn : (colMins X).get? j = some mn) (hmx : (colMaxs X).get? j = some mx)
    (hne : mn ≠ mx) :
    ((st.normalize_data X false).2.get? i = some (normRow (colMins X) (colMaxs X) row)) ∧
    (x = mn → (normRow (colMins X) (colMaxs X) row).get? j = some (some 0)) ∧
    (x = mx → (normRow (colMins X) (colMaxs X) row).get? j = some (some 1)) ∧
    (((st.normalize_data X false).1).normalize_data Y true).2 =
      normalizeWith (colMins X) (colMaxs X) Y := by
  have hzip : (row.zip ((colMins X).zip (colMaxs X))).get? j = some (x, (mn, mx)) := by
    rw [get?_zip, hx, get?_zip, hmn, hmx]
    rfl
  have hget : (normRow (colMins X) (colMaxs X) row).get? j =
      some (rdiv (x - mn) (mx - mn)) := by
    unfold normRow
    rw [List.get?_map, hzip]
    rfl
  have hd : mx - mn ≠ 0 := sub_ne_zero.mpr (Ne.symm hne)
  refine ⟨?_, ?_, ?_, rfl⟩
  · simp only [TrainAnomalyNN.normalize_data, Bool.false_eq_true, if_false, normalizeWith,
      List.get?_map, hrow]
    rfl
  · intro hxm
    rw [hget, hxm]
    unfold rdiv
    rw [if_neg hd, sub_self, zero_div]
  · intro hxm
    rw [hget, hxm]
    unfold rdiv
    rw [if_neg hd, div_self hd]

/-- Claim C5 witness: training on `X = [[0],[2]]` maps the feature minimum
`0` to `0`, the maximum `2` to `1`, and a later inference batch `[[5]]` is
scaled with the stored bounds `0`/`2`. -/
theorem normalize_train_bounds_witness :
    ((TrainAnomalyNN.initial.normalize_data [[(0 : ℚ)], [2]] false).2.get? 0 =
      some (normRow (colMins [[(0 : ℚ)], [2]]) (colMaxs [[(0 : ℚ)], [2]]) [0])) ∧
    ((0 : ℚ) = 0 →
      (normRow (colMins [[(0 : ℚ)], [2]]) (colMaxs [[(0 : ℚ)], [2]]) [0]).get? 0 =
        some (some 0)) ∧
    ((0 : ℚ) = 2 →
      (normRow (colMins [[(0 : ℚ)], [2]]) (colMaxs [[(0 : ℚ)], [2]]) [0]).get? 0 =
        some (some 1)) ∧
    (((TrainAnomalyNN.initial.normalize_data [[(0 : ℚ)], [2]] false).1).normalize_data
        [[(5 : ℚ)]] true).2 =
      normalizeWith (colMins [[(0 : ℚ)], [2]]) (colMaxs [[(0 : ℚ)], [2]]) [[(5 : ℚ)]] := by
  refine normalize_train_bounds TrainAnomalyNN.initial [[(0 : ℚ)], [2]] [[(5 : ℚ)]]
    [0] 0 0 0 0 2 rfl rfl ?_ ?_ (by norm_num)
  · show (colMins [[(0 : ℚ)], [2]]).get? 0 = some 0
    with_unfolding_all decide
  · show (colMaxs [[(0 : ℚ)], [2]]).get? 0 = some 2
    with_unfolding_all decide

/-- Claim C5 counterexample: for the matrix `[[1],[1]]` (a constant feature)
training-mode normalization does not map the feature minimum to `0`: every
entry is the NaN of `0/0`. -/
theorem normalize_min_to_nan_cex :
    (TrainAnomalyNN.initial.normalize_data [[(1 : ℚ)], [1]] false).2 = [[none], [none]] ∧
    (none : Option ℚ) ≠ some 0 := by
  constructor
  · with_unfolding_all decide
  · simp

/-- Claim C8 (amended): training-mode normalization of a matrix whose `j`-th
feature is constant (`min = max`) silently yields the NaN of `0/0` at that
feature of every row — no exception is raised and no finite sentinel is
substituted, the non-finite value simply flows downstream. -/
theorem normalize_constant_feature_nan (st : TrainAnomalyNN) (X : List (List ℚ))
    (row : List ℚ) (i j : ℕ) (x mn mx : ℚ)
    (hrow : X.get? i = some row) (hx : row.get? j = some x)
    (hmn : (colMins X).get? j = some mn) (hmx : (colMaxs X).get? j = some mx)
    (heq : mn = mx) :
    ((st.normalize_data X false).2.get? i = some (normRow (colMins X) (colMaxs X) row)) ∧
    (normRow (colMins X) (colMaxs X) row).get? j = some none := by
  have hzip : (row.zip ((colMins X).zip (colMaxs X))).get? j = some (x, (mn, mx)) := by
    rw [get?_zip, hx, get?_zip, hmn, hmx]
    rfl
  constructor
  · simp only [TrainAnomalyNN.normalize_data, Bool.false_eq_true, if_false, normalizeWith,
      List.get?_map, hrow]
    rfl
  · unfold normRow
    rw [List.get?_map, hzip]
    have hz : mx - mn = 0 := by rw [heq, sub_self]
    show some (rdiv (x - mn) (mx - mn)) = some none
    unfold rdiv
    rw [hz]
    simp

/-- Claim C8 witness: training on `[[3],[3]]` puts the NaN marker at the
constant feature of the first row. -/
theorem normalize_constant_feature_nan_witness :
    ((TrainAnomalyNN.initial.normalize_data [[(3 : ℚ)], [3]] false).2.get? 0 =
      some (normRow (colMins [[(3 : ℚ)], [3]]) (colMaxs [[(3 : ℚ)], [3]]) [3])) ∧
    (normRow (colMins [[(3 : ℚ)], [3]]) (colMaxs [[(3 : ℚ)], [3]]) [3]).get? 0 =
      some none := by
  refine normalize_constant_feature_nan TrainAnomalyNN.initial [[(3 : ℚ)], [3]]
    [3] 0 0 3 3 3 rfl rfl ?_ ?_ rfl
  · show (colMins [[(3 : ℚ)], [3]]).get? 0 = some 3
    with_unfolding_all decide
  · show (colMaxs [[(3 : ℚ)], [3]]).get? 0 = some 3
    with_unfolding_all decide

/-- Claim C8 counterexample: normalizing the constant training matrix
`[[2],[2]]` raises nothing and produces NaN (`0/0`) entries — there is no
error channel and no finite sentinel in `_normalize_data` at all. -/
theorem normalize_silent_nan_cex :
    (TrainAnomalyNN.initial.normalize_data [[(2 : ℚ)], [2]] false).2 = [[none], [none]] := by
  with_unfolding_all decide

theorem sum_map_const_col (X : List (List ℚ)) (j : ℕ) (c : ℚ)
    (hc : ∀ r ∈ X, r.getD j 0 = c) :
    (X.map (fun r => r.getD j 0)).sum = (X.length : ℚ) * c := by
  induction X with
  | nil => simp
  | cons r X ih =>
    simp only [List.map_cons, List.sum_cons, List.length_cons]
    rw [hc r (List.mem_cons_self r X), ih (fun s hs => hc s (List.mem_cons_of_mem _ hs))]
    push_cast
    ring

/-- Claim C6: `estimate_gaussian` returns per feature the arithmetic mean
and the population variance (divisor `m`, not `m − 1`), each feature handled
independently; a feature constant at `c` yields mean `c` and variance `0`,
and on `[[0],[2]]` the variance is the population value `1` (the sample
variance would be `2`). -/
theorem estimate_gaussian_constant (X : List (List ℚ)) (j : ℕ) (c : ℚ)
    (hX : X ≠ []) (hj : j < (X.headD []).length)
    (hc : ∀ r ∈ X, r.getD j 0 = c) :
    (estimate_gaussian X).1.get? j = some c ∧
    (estimate_gaussian X).2.get? j = some 0 ∧
    estimate_gaussian [[(0 : ℚ)], [2]] = ([1], [1]) := by
  have hm : ((X.length : ℕ) : ℚ) ≠ 0 := by
    have : X.length ≠ 0 := fun h => hX (List.length_eq_zero.mp h)
    exact_mod_cast this
  have hmean : (X.map (fun r => r.getD j 0)).sum / ((X.length : ℕ) : ℚ) = c := by
    rw [sum_map_const_col X j c hc]
    exact mul_div_cancel_left₀ c hm
  refine ⟨?_, ?_, ?_⟩
  · simp only [estimate_gaussian]
    rw [List.get?_map, List.get?_range hj]
    show some ((X.map (fun r => r.getD j 0)).sum / ((X.length : ℕ) : ℚ)) = some c
    rw [hmean]
  · simp only [estimate_gaussian]
    rw [List.get?_map, List.get?_range hj]
    show some ((X.map (fun r =>
      (r.getD j 0 - (X.map (fun s => s.getD j 0)).sum / ((X.length : ℕ) : ℚ)) ^ 2)).sum /
        ((X.length : ℕ) : ℚ)) = some 0
    rw [hmean]
    have hz : (X.map (fun r => (r.getD j 0 - c) ^ 2)).sum = 0 := by
      refine List.sum_eq_zero ?_
      intro x hx
      obtain ⟨r, hr, hrx⟩ := List.mem_map.mp hx
      rw [← hrx, hc r hr, sub_self]
      ring
    rw [hz, zero_div]
  · with_unfolding_all decide

/-- Claim C6 witness: the constant matrix `[[7],[7]]` yields mean `7` and
variance `0` for its single feature. -/
theorem estimate_gaussian_constant_witness :
    (estimate_gaussian [[(7 : ℚ)], [7]]).1.get? 0 = some 7 ∧
    (estimate_gaussian [[(7 : ℚ)], [7]]).2.get? 0 = some 0 ∧
    estimate_gaussian [[(0 : ℚ)], [2]] = ([1], [1]) := by
  refine estimate_gaussian_constant [[(7 : ℚ)], [7]] 0 7 (by simp) (by norm_num) ?_
  intro r hr
  rcases List.mem_cons.mp hr with h | h
  · rw [h]; rfl
  · rw [List.mem_singleton.mp h]; rfl

/-- Claim C7: a variance vector containing a zero entry makes the diagonal
covariance singular and `calculate_p_value` surfaces this as the explicit
distribution error raised by `multivariate_normal`, rather than returning
NaN or garbage densities. -/
theorem calculate_p_value_singular (X : List (List ℚ)) (mu var : List ℚ)
    (h0 : 0 ∈ var) :
    calculate_p_value X (some (mu, var)) = .error .distributionError := by
  have ha : var.any (fun v => decide (v ≤ 0)) = true :=
    List.any_eq_true.mpr ⟨0, h0, decide_eq_true le_rfl⟩
  simp only [calculate_p_value, ha, if_pos]

/-- Claim C7 witness: variance vector `[0]` gives the distribution error. -/
theorem calculate_p_value_singular_witness :
    calculate_p_value [[(1 : ℚ)]] (some ([0], [0])) = .error .distributionError :=
  calculate_p_value_singular [[(1 : ℚ)]] [0] [0] (List.mem_singleton.mpr rfl)

theorem normRow_eq_map_some (mins maxs row : List ℚ)
    (hnd : ∀ t ∈ mins.zip maxs, t.2 - t.1 ≠ 0) :
    normRow mins maxs row = (normRowQ mins maxs row).map some := by
  unfold normRow normRowQ
  rw [List.map_map]
  refine List.map_congr_left ?_
  intro t ht
  obtain ⟨a, b⟩ := t
  have h2 : b ∈ mins.zip maxs := (List.of_mem_zip ht).2
  simp only [Function.comp]
  unfold rdiv
  rw [if_neg (hnd b h2)]

theorem seqOption_map_some (l : List ℚ) :
    seqOption (l.map some) = some l := by
  induction l with
  | nil => rfl
  | cons a l ih => simp [seqOption, ih]

theorem recErr_eq (f : List ℚ → List ℚ) (mins maxs row : List ℚ)
    (hnd : ∀ t ∈ mins.zip maxs, t.2 - t.1 ≠ 0) :
    recErr f (normRow mins maxs row) = some (mseSpec mins maxs f row) := by
  rw [normRow_eq_map_some mins maxs row hnd]
  unfold recErr mseSpec
  rw [seqOption_map_some]
  rfl

/-- Claim C9: on a trained `TrainAnomalyNN` (with nondegenerate stored
bounds), `predict` normalizes the batch with the stored training bounds,
computes each sample's reconstruction error as the mean over features of the
squared difference between the normalized input and the network's
reconstruction of it, and returns the 0/1 vector `error > threshold`
together with the error vector; the default threshold is `0.0002` and, the
evaluation being pure (`torch.no_grad`), no state is modified. -/
theorem predict_reconstruction (st : TrainAnomalyNN) (f : List ℚ → List ℚ)
    (X : List (List ℚ)) (threshold : ℚ)
    (hf : st.model = some f)
    (hnd : ∀ t ∈ st.train_min_values.zip st.train_max_values, t.2 - t.1 ≠ 0) :
    st.predict X threshold =
      .ok (X.map (fun row =>
            if threshold < mseSpec st.train_min_values st.train_max_values f row
            then 1 else 0),
          X.map (fun row =>
            some (mseSpec st.train_min_values st.train_max_values f row))) ∧
    st.predict_default X = st.predict X (2 / 10000) := by
  refine ⟨?_, rfl⟩
  simp only [TrainAnomalyNN.predict, hf]
  have herr : (normalizeWith st.train_min_values st.train_max_values X).map (recErr f) =
      X.map (fun row => some (mseSpec st.train_min_values st.train_max_values f row)) := by
    unfold normalizeWith
    rw [List.map_map]
    refine List.map_congr_left ?_
    intro row _
    simp only [Function.comp]
    exact recErr_eq f st.train_min_values st.train_max_values row hnd
  have hnorm : (st.normalize_data X true).2 =
      normalizeWith st.train_min_values st.train_max_values X := rfl
  rw [hnorm, herr, List.map_map]
  rfl

/-- Claim C9 witness: an identity reconstruction network with stored bounds
`[0]`/`[1]` on the batch `[[1/2]]` at the default threshold `0.0002`. -/
theorem predict_reconstruction_witness :
    (⟨some (fun r => r), [0], [1]⟩ : TrainAnomalyNN).predict [[(1 : ℚ) / 2]] (2 / 10000) =
      .ok ([[(1 : ℚ) / 2]].map (fun row =>
            if (2 : ℚ) / 10000 < mseSpec [0] [1] (fun r => r) row then 1 else 0),
          [[(1 : ℚ) / 2]].map (fun row =>
            some (mseSpec [0] [1] (fun r => r) row))) ∧
    (⟨some (fun r => r), [0], [1]⟩ : TrainAnomalyNN).predict_default [[(1 : ℚ) / 2]] =
      (⟨some (fun r => r), [0], [1]⟩ : TrainAnomalyNN).predict [[(1 : ℚ) / 2]] (2 / 10000) :=
  predict_reconstruction ⟨some (fun r => r), [0], [1]⟩ (fun r => r) [[(1 : ℚ) / 2]]
    (2 / 10000) rfl
    (by
      intro t ht
      simp only [List.zip_cons_cons, List.zip_nil_right, List.mem_singleton] at ht
      rw [ht]
      norm_num)

end QuickAnomaly
